import Mathlib

/-!
Verification development for the tabular_tool transformation pipeline
(`src/main.rs`).  The Rust program builds a lazy polars plan from CLI
options, samples it with a bounded window, and computes lint and
statistics reports.  This file shallowly embeds those functions over
lists: a table column is a list of optional values (with `none` for a
null cell), a pipeline output is a list of rows, machine floats are
modelled as rationals (with `none` standing for the `f64::NAN` that
the Rust code substitutes for missing aggregates), and the ambient
random generator is an injected index-picking function.
-/

namespace TabularTool

/-- A scalar cell value, as produced by the polars engine. -/
inductive Value where
  | vInt (i : Int)
  | vFloat (q : ℚ)
  | vStr (s : String)
  | vBool (b : Bool)
deriving DecidableEq

/-- Numeric view of a value.  The stats code only applies this to columns
whose declared dtype is numeric, where the engine guarantees `vInt`/`vFloat`
cells; the fallback `0` for other constructors is never reached there. -/
def Value.toRat : Value → ℚ
  | .vInt i => (i : ℚ)
  | .vFloat q => q
  | .vStr _ => 0
  | .vBool _ => 0

/-- Declared column type (model of the polars `DataType` as far as
`is_numeric` dispatch is concerned). -/
inductive DType where
  | int
  | float
  | str
  | bool
  | date
deriving DecidableEq

/-- Model of polars `DataType::is_numeric`: integers and floats. -/
def DType.isNumeric : DType → Bool
  | .int => true
  | .float => true
  | _ => false

/-- One materialized column: name, declared dtype, and cells
(`none` is a null cell). -/
structure NamedCol where
  name : String
  dtype : DType
  values : List (Option Value)
deriving DecidableEq

/-- Projection mode of a `Project` stage (`--select` vs `--drop`). -/
inductive ProjMode where
  | includeOnly
  | exclude
deriving DecidableEq

/-- One transformation stage, as applied to the lazy plan by
`apply_transformations` in `src/main.rs`.  `Slice` length `none` models the
`IdxSize::MAX` "all remaining rows" length. -/
inductive Stage where
  | filter (predicate : String)
  | project (mode : ProjMode) (columns : List String)
  | sort (keys : List String) (descending : Bool) (fold_case : Bool)
  | dedup (scope : Option (List String))
  | slice (offset : Int) (length : Option Nat)
deriving DecidableEq

/-- Errors surfaced by the pipeline compiler.  `filterErr p` models the
`anyhow` context error `Failed to parse filter: '<p>'` raised when
`sql_expr` rejects the predicate string `p`. -/
inductive TtError where
  | filterErr (predicate : String)
deriving DecidableEq

/-- The recognized transformation options of the `Cli` struct
(`src/main.rs`), restricted to the fields `apply_transformations` reads.
Comma-separated column-list options are modelled already split into their
column names (the split is CLI glue). -/
structure Cli where
  filter : Option String
  select : Option (List String)
  drop : Option (List String)
  sort_keys : List String
  reverse : Bool
  ignore_case : Bool
  unique : Bool
  unique_on : Option (List String)
  limit : Option Nat
  offset : Option Int
deriving DecidableEq

/-- Stage(s) contributed by the `--filter` option. -/
def filterStages (c : Cli) : List Stage :=
  match c.filter with
  | some p => [Stage.filter p]
  | none => []

/-- Stage(s) contributed by the `--select` option. -/
def selectStages (c : Cli) : List Stage :=
  match c.select with
  | some cs => [Stage.project ProjMode.includeOnly cs]
  | none => []

/-- Stage(s) contributed by the `--drop` option. -/
def dropStages (c : Cli) : List Stage :=
  match c.drop with
  | some cs => [Stage.project ProjMode.exclude cs]
  | none => []

/-- Stage(s) contributed by the sort options. -/
def sortStages (c : Cli) : List Stage :=
  if c.sort_keys.isEmpty then []
  else [Stage.sort c.sort_keys c.reverse c.ignore_case]

/-- Stage(s) contributed by the dedup options (`--unique-on` takes
precedence over `--unique`, as in the source). -/
def dedupStages (c : Cli) : List Stage :=
  match c.unique_on with
  | some cs => [Stage.dedup (some cs)]
  | none => if c.unique then [Stage.dedup none] else []

/-- Stage(s) contributed by `--offset`/`--limit`: one combined `Slice`.
With an offset, length is the limit when given, else "remaining"
(`IdxSize::MAX`); a limit alone is `lf.limit(l)`, i.e. a slice at
offset 0. -/
def sliceStages (c : Cli) : List Stage :=
  match c.offset with
  | some o => [Stage.slice o c.limit]
  | none =>
    match c.limit with
    | some l => [Stage.slice 0 (some l)]
    | none => []

/-- Embedding of `apply_transformations` (src/main.rs, lines 615-677): the
sequence of stages applied to the lazy plan, accumulated in source order.
`parseOk` is the external engine's predicate parser (`polars::sql::sql_expr`),
modelled by whether it accepts the opaque predicate string; the parsed
expression itself is opaque, so the `Filter` stage carries the string. -/
def apply_transformations (parseOk : String → Bool) (c : Cli) :
    Except TtError (List Stage) := do
  let lf0 : List Stage := []
  -- 1. Filter rows FIRST (needs access to all columns)
  let lf1 ← match c.filter with
    | some filter_expr =>
      if parseOk filter_expr then Except.ok (lf0 ++ [Stage.filter filter_expr])
      else Except.error (TtError.filterErr filter_expr)
    | none => Except.ok lf0
  -- 2. Select/Drop columns (after filtering, to reduce data)
  let lf2 := match c.select with
    | some select_cols => lf1 ++ [Stage.project ProjMode.includeOnly select_cols]
    | none => lf1
  let lf3 := match c.drop with
    | some drop_cols => lf2 ++ [Stage.project ProjMode.exclude drop_cols]
    | none => lf2
  -- 3. Sort
  let lf4 := if c.sort_keys.isEmpty then lf3
    else lf3 ++ [Stage.sort c.sort_keys c.reverse c.ignore_case]
  -- 4. Unique (deduplication); unique_on takes precedence
  let lf5 := match c.unique_on with
    | some unique_cols => lf4 ++ [Stage.dedup (some unique_cols)]
    | none => if c.unique then lf4 ++ [Stage.dedup none] else lf4
  -- 5. Offset and Limit (pagination) - must be last
  let lf6 := match c.offset with
    | some offset =>
      lf5 ++ [Stage.slice offset c.limit]
    | none =>
      match c.limit with
      | some limit => lf5 ++ [Stage.slice 0 (some limit)]
      | none => lf5
  return lf6

/-- Model of the engine's `take_by_index` gather
(`DataFrame::take(&idx_series)`): read the rows at the given indices, in
the order the indices are listed. -/
def takeIdx {α : Type} (l : List α) (idx : List ℕ) : List α :=
  idx.filterMap (fun i => l.get? i)

/-- The sampling window of `apply_random_sample_streaming`:
`(n * 1000).max(100_000).min(row_count)`. -/
def sampleWindow (n total : ℕ) : ℕ :=
  min (max (n * 1000) 100000) total

/-- A well-behaved random index source: asked for `k` indices below `m`
(with `k ≤ m`, as `rand::seq::index::sample` requires), it returns exactly
`k` distinct in-range indices.  The program's `thread_rng`-backed sampler
satisfies this; per the design notes the random source is injected so the
index-selection logic can be verified independently of true randomness. -/
def ValidPick (pick : ℕ → ℕ → List ℕ) : Prop :=
  ∀ m k, k ≤ m →
    (pick m k).length = k ∧ (pick m k).Nodup ∧ ∀ i ∈ pick m k, i < m

/-- A deterministic index source (the first `k` indices), used to witness
the sampler theorems. -/
def rangePick : ℕ → ℕ → List ℕ :=
  fun _ k => List.range k

/-- Embedding of `apply_random_sample_streaming` (src/main.rs, lines
549-580).  `pick m k` stands for `rand::seq::index::sample(&mut
thread_rng(), m, k)`; rows of the pipeline output are the list `lf`. -/
def apply_random_sample_streaming {α : Type} (pick : ℕ → ℕ → List ℕ)
    (lf : List α) (n : ℕ) : List α :=
  let row_count := lf.length
  let sample_size := min n row_count
  if row_count ≤ sample_size then lf
  else
    let sample_window := sampleWindow n row_count
    let limited_df := lf.take sample_window
    takeIdx limited_df (pick limited_df.length sample_size)

/-- Rust's `x.round() as usize` for the nonnegative products the sample
code forms: round half away from zero, then saturate negatives to 0.
For every input this agrees with `(⌊x + 1/2⌋).toNat` (negative halves
round toward zero in Rust, but both sides then saturate to 0). -/
def roundToUsize (q : ℚ) : ℕ :=
  (⌊q + 1 / 2⌋).toNat

/-- A sample-size argument: the command line's `N` token, already
classified by whether it contains a decimal point (`n_str.contains('.')`). -/
inductive SampleArg where
  | count (n : ℕ)
  | fraction (f : ℚ)

/-- Embedding of the sample-size resolution in `main` (src/main.rs, lines
258-272): a fractional argument is resolved against the row count of the
already-transformed data as `(row_count as f64 * frac).round() as usize`. -/
def resolve_sample_size {α : Type} (rows : List α) (arg : SampleArg) : ℕ :=
  match arg with
  | .count n => n
  | .fraction f => roundToUsize ((rows.length : ℚ) * f)

/-- The sample command applied to the transformed rows: resolve the size,
then run the windowed sampler. -/
def sample_command {α : Type} (pick : ℕ → ℕ → List ℕ) (rows : List α)
    (arg : SampleArg) : List α :=
  apply_random_sample_streaming pick rows (resolve_sample_size rows arg)

/-- Model of the engine's `slice(offset, length)` combinator (polars
semantics): a negative offset counts from the end (clamped at the start),
`length = none` means all remaining rows (`IdxSize::MAX`). -/
def sliceTable {α : Type} (rows : List α) (offset : Int) (len : Option ℕ) :
    List α :=
  let start : ℕ :=
    if offset < 0 then ((rows.length : Int) + offset).toNat else offset.toNat
  let rest := rows.drop start
  match len with
  | some l => rest.take l
  | none => rest

/-- Worker for `uniqueStable`: keep a row iff its key has not been seen. -/
def uniqueStableAux {α β : Type} [DecidableEq β] (key : α → β) :
    List α → List β → List α
  | [], _ => []
  | a :: rest, seen =>
    if key a ∈ seen then uniqueStableAux key rest seen
    else a :: uniqueStableAux key rest (key a :: seen)

/-- Model of the engine's `unique_stable(subset, UniqueKeepStrategy::First)`:
keep the first occurrence of every key, in source order.  `key` is the
identity for a full-row dedup, or the projection to the subset columns for
`unique_on`. -/
def uniqueStable {α β : Type} [DecidableEq β] (key : α → β)
    (rows : List α) : List α :=
  uniqueStableAux key rows []

/-- Embedding of the duplicate check of `lint_data` (src/main.rs, lines
457-495): `duplicate_count = total_rows - unique_count`, where
`unique_count` counts the rows surviving the first-occurrence dedup. -/
def lintDuplicateCount {α β : Type} [DecidableEq β] (key : α → β)
    (rows : List α) : ℕ :=
  let total_rows := rows.length
  let unique_count := (uniqueStable key rows).length
  total_rows - unique_count

/-- The duplicate-scan example rows of the spec. -/
def dupRows : List (String × Int) :=
  [("A", 1), ("B", 2), ("A", 1), ("C", 3), ("B", 2)]

/-- The non-null cells of a column, as rationals (model of the engine
dropping nulls before a numeric aggregation). -/
def nonNullVals (vs : List (Option Value)) : List ℚ :=
  vs.filterMap (fun v => v.map Value.toRat)

/-- Model of `Expr::count`: the number of NON-NULL values (polars
`count` ignores nulls; `len` is the separate all-rows count). -/
def aggCount (vs : List (Option Value)) : ℕ :=
  (nonNullVals vs).length

/-- Model of `null_count`: the number of null cells. -/
def aggNullCount (vs : List (Option Value)) : ℕ :=
  (vs.filter (fun v => v.isNone)).length

/-- Model of the engine's `mean` over the non-null values (null when the
column is all-null, which the Rust code renders as NaN). -/
def aggMean (vs : List (Option Value)) : Option ℚ :=
  let xs := nonNullVals vs
  if xs.length = 0 then none else some (xs.sum / (xs.length : ℚ))

/-- Model of the engine's sample variance (`ddof = 1`); null (NaN in the
report) when fewer than 2 non-null values exist. -/
def aggVarSample (vs : List (Option Value)) : Option ℚ :=
  let xs := nonNullVals vs
  if xs.length < 2 then none
  else
    let m := xs.sum / (xs.length : ℚ)
    some ((xs.map (fun x => (x - m) ^ 2)).sum / ((xs.length : ℚ) - 1))

/-- Model of the engine's `std(1)`: the square root of the sample
variance.  The engine's float square root is an external operation and is
passed in as `sqrtQ`; both stats implementations delegate to it. -/
def aggStd (sqrtQ : ℚ → ℚ) (vs : List (Option Value)) : Option ℚ :=
  (aggVarSample vs).map sqrtQ

/-- Model of the engine's `min` over non-null values (cast to float). -/
def aggMin (vs : List (Option Value)) : Option ℚ :=
  match nonNullVals vs with
  | [] => none
  | x :: xs => some (xs.foldl min x)

/-- Model of the engine's `max` over non-null values (cast to float). -/
def aggMax (vs : List (Option Value)) : Option ℚ :=
  match nonNullVals vs with
  | [] => none
  | x :: xs => some (xs.foldl max x)

/-- Insert into an ascending-sorted list (worker for `sortQ`). -/
def insertSorted (x : ℚ) : List ℚ → List ℚ
  | [] => [x]
  | y :: ys => if x ≤ y then x :: y :: ys else y :: insertSorted x ys

/-- Ascending sort of rationals (model of the engine's sort used inside
`median`). -/
def sortQ : List ℚ → List ℚ
  | [] => []
  | x :: xs => insertSorted x (sortQ xs)

/-- Model of the engine's `median` over non-null values: middle element
for an odd count, mean of the two middle elements for an even count. -/
def aggMedian (vs : List (Option Value)) : Option ℚ :=
  let xs := sortQ (nonNullVals vs)
  if xs.length = 0 then none
  else if xs.length % 2 = 1 then some (xs.getD (xs.length / 2) 0)
  else some ((xs.getD (xs.length / 2 - 1) 0 + xs.getD (xs.length / 2) 0) / 2)

/-- The stats report: one entry per numeric column in each of the 8
declared fields (`column, count, null_count, mean, std, min, median, max`,
exactly the 8-column schema the Rust code declares).  `none` in a
rational field stands for the NaN the Rust code writes via
`unwrap_or(f64::NAN)`. -/
structure StatsReport where
  column : List String
  count : List ℕ
  null_count : List ℕ
  mean : List (Option ℚ)
  std : List (Option ℚ)
  min : List (Option ℚ)
  median : List (Option ℚ)
  max : List (Option ℚ)
deriving DecidableEq

/-- The empty-but-schema-complete report returned when no numeric column
exists: all 8 fields present, zero rows. -/
def emptyStatsReport : StatsReport :=
  ⟨[], [], [], [], [], [], [], []⟩

/-- Embedding of `compute_stats_lazy` (src/main.rs, lines 715-787):
select the columns of numeric declared type; if none, the empty report;
otherwise one batched aggregation per statistic per column, reshaped into
one report row per column.  Its `count` is `Expr::count`, the NON-NULL
count. -/
def compute_stats_lazy (sqrtQ : ℚ → ℚ) (t : List NamedCol) : StatsReport :=
  let numeric_cols := t.filter (fun c => c.dtype.isNumeric)
  if numeric_cols.isEmpty then
    emptyStatsReport
  else
    ⟨numeric_cols.map (fun c => c.name),
     numeric_cols.map (fun c => aggCount c.values),
     numeric_cols.map (fun c => aggNullCount c.values),
     numeric_cols.map (fun c => aggMean c.values),
     numeric_cols.map (fun c => aggStd sqrtQ c.values),
     numeric_cols.map (fun c => aggMin c.values),
     numeric_cols.map (fun c => aggMedian c.values),
     numeric_cols.map (fun c => aggMax c.values)⟩

/-- Embedding of the eager `compute_stats` (src/main.rs, lines 790-846):
iterate the materialized columns, keep the numeric ones, and compute the
same engine statistics — except that its `count` is `series.len()`, the
TOTAL row count including nulls. -/
def compute_stats (sqrtQ : ℚ → ℚ) (t : List NamedCol) : StatsReport :=
  let numeric_cols := t.filter (fun c => c.dtype.isNumeric)
  ⟨numeric_cols.map (fun c => c.name),
   numeric_cols.map (fun c => c.values.length),
   numeric_cols.map (fun c => aggNullCount c.values),
   numeric_cols.map (fun c => aggMean c.values),
   numeric_cols.map (fun c => aggStd sqrtQ c.values),
   numeric_cols.map (fun c => aggMin c.values),
   numeric_cols.map (fun c => aggMedian c.values),
   numeric_cols.map (fun c => aggMax c.values)⟩

/-- A one-column numeric table containing a null (distinguishes the two
stats implementations). -/
def nullTable : List NamedCol :=
  [⟨"a", DType.int, [some (Value.vInt 1), none]⟩]

/-- A one-column numeric table with no nulls. -/
def nonNullTable : List NamedCol :=
  [⟨"b", DType.int, [some (Value.vInt 1), some (Value.vInt 2), some (Value.vInt 3)]⟩]

/-- A table with no numeric column. -/
def strTable : List NamedCol :=
  [⟨"name", DType.str, [some (Value.vStr "x"), none]⟩]

/-- A row of the transformed result for the lint null scan, as (column
name, cell) pairs; a `none` cell is a null. -/
abbrev Row := List (String × Option Value)

/-- Model of `col(name).is_null()` evaluated on one row. -/
def isNullCell (r : Row) (cname : String) : Bool :=
  match r.lookup cname with
  | some none => true
  | _ => false

/-- Embedding of the OR-reduction of `lint_data`'s show-nulls check
(src/main.rs, lines 516-520): seed with the first checked column's
null predicate and OR in the rest; `none` models the panic the
`cols_to_check[0]` index would raise on an empty list. -/
def combined_null_filter (cols_to_check : List String) :
    Option (Row → Bool) :=
  match cols_to_check with
  | [] => none
  | c0 :: rest =>
    some (rest.foldl (fun acc cn => fun r => acc r || isNullCell r cn)
      (fun r => isNullCell r c0))

/-- Embedding of the null-row extraction of `lint_data` (src/main.rs,
lines 507-542): filter the transformed rows by the combined null
predicate and cap at 100 rows unless `--all` is given. -/
def lint_show_nulls (rows : List Row) (cols_to_check : List String)
    (allFlag : Bool) : Option (List Row) :=
  match combined_null_filter cols_to_check with
  | none => none
  | some p =>
    let null_rows := rows.filter p
    some (if allFlag then null_rows else null_rows.take 100)

/-- A Cli with every transformation option present (witness input). -/
def cliEx : Cli :=
  ⟨some "age > 25", some ["name", "age"], some ["city"], ["age"],
   false, false, false, some ["name"], some 10, some 5⟩

/-- A Cli whose filter predicate the parser will reject (witness input). -/
def cliBad : Cli :=
  ⟨some "bogus((", none, none, [], false, false, false, none, none, none⟩

/-! ### Helper lemmas -/

theorem takeIdx_length {α : Type} (l : List α) (idx : List ℕ)
    (h : ∀ i ∈ idx, i < l.length) : (takeIdx l idx).length = idx.length := by
  induction idx with
  | nil => rfl
  | cons i is ih =>
    have hi : i < l.length := h i (List.mem_cons_self _ _)
    have hrest : ∀ j ∈ is, j < l.length := fun j hj => h j (List.mem_cons_of_mem _ hj)
    simp only [takeIdx, List.filterMap_cons, List.get?_eq_get hi, List.length_cons]
    exact congrArg Nat.succ (ih hrest)

theorem takeIdx_mem {α : Type} {l : List α} {idx : List ℕ} {a : α}
    (h : a ∈ takeIdx l idx) : a ∈ l := by
  simp only [takeIdx, List.mem_filterMap] at h
  obtain ⟨i, _, hi⟩ := h
  exact List.get?_mem hi

theorem rangePick_valid : ValidPick rangePick := by
  intro m k hk
  refine ⟨List.length_range k, List.nodup_range k, ?_⟩
  intro i hi
  exact lt_of_lt_of_le (List.mem_range.mp hi) hk

theorem uniqueStableAux_sublist {α β : Type} [DecidableEq β] (key : α → β) :
    ∀ (l : List α) (seen : List β), List.Sublist (uniqueStableAux key l seen) l := by
  intro l
  induction l with
  | nil => intro seen; simp [uniqueStableAux]
  | cons a rest ih =>
    intro seen
    by_cases h : key a ∈ seen
    · simp only [uniqueStableAux, if_pos h]
      exact (ih seen).cons a
    · simp only [uniqueStableAux, if_neg h]
      exact (ih _).cons₂ a

theorem uniqueStableAux_keys {α β : Type} [DecidableEq β] (key : α → β) :
    ∀ (l : List α) (seen : List β),
      ((uniqueStableAux key l seen).map key).Nodup
      ∧ ∀ b ∈ (uniqueStableAux key l seen).map key, b ∉ seen := by
  intro l
  induction l with
  | nil => intro seen; simp [uniqueStableAux]
  | cons a rest ih =>
    intro seen
    by_cases h : key a ∈ seen
    · simpa only [uniqueStableAux, if_pos h] using ih seen
    · have ih' := ih (key a :: seen)
      simp only [uniqueStableAux, if_neg h, List.map_cons, List.nodup_cons]
      refine ⟨⟨?_, ih'.1⟩, ?_⟩
      · intro hmem
        exact (ih'.2 _ hmem) (List.mem_cons_self _ _)
      · intro b hb
        rcases List.mem_cons.mp hb with rfl | hb'
        · exact h
        · intro hbseen
          exact (ih'.2 b hb') (List.mem_cons_of_mem _ hbseen)

theorem nonNullVals_length {vs : List (Option Value)}
    (h : ∀ v ∈ vs, v.isSome = true) : (nonNullVals vs).length = vs.length := by
  induction vs with
  | nil => rfl
  | cons v tl ih =>
    have hv := h v (List.mem_cons_self _ _)
    obtain ⟨x, rfl⟩ := Option.isSome_iff_exists.mp hv
    simp only [nonNullVals, List.filterMap_cons, Option.map_some, List.length_cons] at *
    exact congrArg (· + 1) (ih (fun w hw => h w (List.mem_cons_of_mem _ hw)))

theorem aggCount_of_noNulls {vs : List (Option Value)}
    (h : ∀ v ∈ vs, v.isSome = true) : aggCount vs = vs.length :=
  nonNullVals_length h

/-! ### Claim theorems -/

/-- C1: for every combination of transformation options (with an accepted
or absent filter predicate), `apply_transformations` builds the stage
sequence in the fixed order Filter, Project(select), Project(drop), Sort,
Dedup, Slice, and each per-option stage list is empty exactly when the
option is absent. -/
theorem c1_stage_order (parseOk : String → Bool) (c : Cli)
    (hp : ∀ p, c.filter = some p → parseOk p = true) :
    apply_transformations parseOk c =
      Except.ok (filterStages c ++ selectStages c ++ dropStages c ++
        sortStages c ++ dedupStages c ++ sliceStages c)
    ∧ (filterStages c = [] ↔ c.filter = none)
    ∧ (selectStages c = [] ↔ c.select = none)
    ∧ (dropStages c = [] ↔ c.drop = none)
    ∧ (sortStages c = [] ↔ c.sort_keys = [])
    ∧ (dedupStages c = [] ↔ (c.unique = false ∧ c.unique_on = none))
    ∧ (sliceStages c = [] ↔ (c.offset = none ∧ c.limit = none)) := by
  obtain ⟨fil, sel, dr, sk, rev, ic, uniq, uo, lim, off⟩ := c
  refine ⟨?_, ?_, ?_, ?_, ?_, ?_, ?_⟩
  · cases fil with
    | none =>
      cases sel <;> cases dr <;> cases uo <;> cases uniq <;> cases off <;>
        cases lim <;> cases sk <;>
        simp [apply_transformations, filterStages, selectStages, dropStages,
          sortStages, dedupStages, sliceStages]
    | some p =>
      have hp' : parseOk p = true := hp p rfl
      cases sel <;> cases dr <;> cases uo <;> cases uniq <;> cases off <;>
        cases lim <;> cases sk <;>
        simp [apply_transformations, filterStages, selectStages, dropStages,
          sortStages, dedupStages, sliceStages, hp']
  · cases fil <;> simp [filterStages]
  · cases sel <;> simp [selectStages]
  · cases dr <;> simp [dropStages]
  · cases sk <;> simp [sortStages]
  · cases uo <;> cases uniq <;> simp [dedupStages]
  · cases off <;> cases lim <;> simp [sliceStages]

/-- Witness for C1: every option present, parser accepting. -/
theorem c1_witness :
    apply_transformations (fun _ => true) cliEx =
      Except.ok (filterStages cliEx ++ selectStages cliEx ++ dropStages cliEx ++
        sortStages cliEx ++ dedupStages cliEx ++ sliceStages cliEx) :=
  (c1_stage_order (fun _ => true) cliEx (fun _ _ => rfl)).1

/-- C2: for `0 < n < total_rows`, the eligible pool is exactly the first
`clamp(n*1000, 100_000, total_rows)` rows (the window never exceeds
`total_rows`), and the sample is exactly `n` rows gathered at distinct
in-window indices (without replacement) from that pool. -/
theorem c2_windowed_sample {α : Type} (pick : ℕ → ℕ → List ℕ) (rows : List α)
    (n : ℕ) (hv : ValidPick pick) (h0 : 0 < n) (h1 : n < rows.length) :
    sampleWindow n rows.length ≤ rows.length
    ∧ (apply_random_sample_streaming pick rows n).length = n
    ∧ (∀ r ∈ apply_random_sample_streaming pick rows n,
        r ∈ rows.take (sampleWindow n rows.length))
    ∧ ∃ idx : List ℕ, idx.Nodup ∧ idx.length = n
        ∧ (∀ i ∈ idx, i < sampleWindow n rows.length)
        ∧ apply_random_sample_streaming pick rows n
            = takeIdx (rows.take (sampleWindow n rows.length)) idx := by
  have hw_le : sampleWindow n rows.length ≤ rows.length := min_le_right _ _
  have hn_w : n ≤ sampleWindow n rows.length := by
    refine le_min (le_trans ?_ (le_max_left _ _)) h1.le
    calc n = n * 1 := (Nat.mul_one n).symm
    _ ≤ n * 1000 := Nat.mul_le_mul_left n (by norm_num)
  have hmin : min n rows.length = n := min_eq_left h1.le
  have hlen_lim : (rows.take (sampleWindow n rows.length)).length
      = sampleWindow n rows.length := by
    simp [List.length_take, min_eq_left hw_le]
  have happ : apply_random_sample_streaming pick rows n
      = takeIdx (rows.take (sampleWindow n rows.length))
          (pick (sampleWindow n rows.length) n) := by
    simp only [apply_random_sample_streaming, hmin, hlen_lim]
    rw [if_neg (by omega : ¬ rows.length ≤ n)]
  obtain ⟨hlen, hnodup, hbound⟩ := hv (sampleWindow n rows.length) n hn_w
  refine ⟨hw_le, ?_, ?_, pick (sampleWindow n rows.length) n, hnodup, hlen,
    hbound, happ⟩
  · rw [happ, takeIdx_length]
    · exact hlen
    · intro i hi
      rw [hlen_lim]
      exact hbound i hi
  · intro r hr
    rw [happ] at hr
    exact takeIdx_mem hr

/-- Witness for C2 at `rows = range 3`, `n = 1`, deterministic pick. -/
theorem c2_witness :
    sampleWindow 1 (List.range 3).length ≤ (List.range 3).length
    ∧ (apply_random_sample_streaming rangePick (List.range 3) 1).length = 1 :=
  ⟨(c2_windowed_sample rangePick (List.range 3) 1 rangePick_valid (by decide)
      (by decide)).1,
   (c2_windowed_sample rangePick (List.range 3) 1 rangePick_valid (by decide)
      (by decide)).2.1⟩

/-- C3: the lint duplicate check reports
`total_rows - (first-occurrence dedup).length` (with `key` the identity for
a full-row scan or the projection to the scope columns), the dedup really
keeps one row per key in source order, and on the spec's example rows the
report is 2 — both with no scope and with scope on the first field. -/
theorem c3_duplicate_count {α β : Type} [DecidableEq β] (key : α → β)
    (rows : List α) :
    (lintDuplicateCount key rows
        = rows.length - (uniqueStable key rows).length
      ∧ ((uniqueStable key rows).map key).Nodup
      ∧ List.Sublist (uniqueStable key rows) rows)
    ∧ lintDuplicateCount (fun r => r) dupRows = 2
    ∧ lintDuplicateCount (fun r => r.1) dupRows = 2 := by
  refine ⟨⟨rfl, (uniqueStableAux_keys key rows []).1,
    uniqueStableAux_sublist key rows []⟩, ?_, ?_⟩
  · rfl
  · rfl

/-- C4: sampling with `n ≥ total_rows` is the identity (full result,
unchanged), and sampling with `n = 0` returns the empty result. -/
theorem c4_sample_edge {α : Type} (pick : ℕ → ℕ → List ℕ) (rows : List α)
    (n : ℕ) (hv : ValidPick pick) :
    (rows.length ≤ n → apply_random_sample_streaming pick rows n = rows)
    ∧ apply_random_sample_streaming pick rows 0 = [] := by
  constructor
  · intro h
    simp [apply_random_sample_streaming, min_eq_right h]
  · rcases Nat.eq_zero_or_pos rows.length with hz | hpos
    · have hnil : rows = [] := List.length_eq_zero.mp hz
      subst hnil
      rfl
    · have hmin : min 0 rows.length = 0 := Nat.zero_min _
      have hempty : ∀ m, pick m 0 = [] := fun m =>
        List.length_eq_zero.mp (hv m 0 (Nat.zero_le _)).1
      simp [apply_random_sample_streaming, hmin, Nat.not_le.mpr hpos, hempty,
        takeIdx]

/-- Witness for C4 on a 2-row table: `n = 5 ≥ 2` is the identity and
`n = 0` is empty. -/
theorem c4_witness :
    apply_random_sample_streaming rangePick ([10, 20] : List ℕ) 5 = [10, 20]
    ∧ apply_random_sample_streaming rangePick ([10, 20] : List ℕ) 0 = [] :=
  ⟨(c4_sample_edge rangePick [10, 20] 5 rangePick_valid).1 (by decide),
   (c4_sample_edge rangePick [10, 20] 5 rangePick_valid).2⟩

/-- C5: with non-negative offset `o` and limit `l` the final `Slice`
yields exactly `min l (r - o)` rows (truncated subtraction), a limit alone
(slice at offset 0) yields `min l r` rows, and an offset with no limit
yields all remaining rows. -/
theorem c5_slice_length {α : Type} (rows : List α) (o : Int) (l : ℕ)
    (ho : 0 ≤ o) :
    (sliceTable rows o (some l)).length = min l (rows.length - o.toNat)
    ∧ (sliceTable rows 0 (some l)).length = min l rows.length
    ∧ (sliceTable rows o none).length = rows.length - o.toNat := by
  have hno : ¬ o < 0 := not_lt.mpr ho
  refine ⟨?_, ?_, ?_⟩
  · simp [sliceTable, hno, List.length_take, List.length_drop]
  · simp [sliceTable, List.length_take, List.length_drop]
  · simp [sliceTable, hno, List.length_drop]

/-- Witness for C5 on a 5-row table with offset 1, limit 2. -/
theorem c5_witness :
    (sliceTable ([0, 1, 2, 3, 4] : List ℕ) 1 (some 2)).length
      = min 2 (([0, 1, 2, 3, 4] : List ℕ).length - (1 : Int).toNat)
    ∧ (sliceTable ([0, 1, 2, 3, 4] : List ℕ) 0 (some 2)).length
      = min 2 ([0, 1, 2, 3, 4] : List ℕ).length
    ∧ (sliceTable ([0, 1, 2, 3, 4] : List ℕ) 1 none).length
      = ([0, 1, 2, 3, 4] : List ℕ).length - (1 : Int).toNat :=
  c5_slice_length [0, 1, 2, 3, 4] 1 2 (by decide)

/-- C6: on a table with no numeric declared column the stats aggregator
returns the empty report: the fixed 8-field schema with every field (hence
every row) empty. -/
theorem c6_stats_no_numeric (sqrtQ : ℚ → ℚ) (t : List NamedCol)
    (h : ∀ c ∈ t, c.dtype.isNumeric = false) :
    compute_stats_lazy sqrtQ t = emptyStatsReport
    ∧ (compute_stats_lazy sqrtQ t).column = []
    ∧ (compute_stats_lazy sqrtQ t).count = []
    ∧ (compute_stats_lazy sqrtQ t).null_count = []
    ∧ (compute_stats_lazy sqrtQ t).mean = []
    ∧ (compute_stats_lazy sqrtQ t).std = []
    ∧ (compute_stats_lazy sqrtQ t).min = []
    ∧ (compute_stats_lazy sqrtQ t).median = []
    ∧ (compute_stats_lazy sqrtQ t).max = [] := by
  have hfil : t.filter (fun c => c.dtype.isNumeric) = [] := by
    rw [List.filter_eq_nil_iff]
    intro c hc
    simp [h c hc]
  have hmain : compute_stats_lazy sqrtQ t = emptyStatsReport := by
    simp [compute_stats_lazy, hfil]
  refine ⟨hmain, ?_, ?_, ?_, ?_, ?_, ?_, ?_, ?_⟩ <;> rw [hmain] <;> rfl

/-- Witness for C6 on a single string column. -/
theorem c6_witness :
    compute_stats_lazy (fun q => q) strTable = emptyStatsReport
    ∧ (compute_stats_lazy (fun q => q) strTable).column = []
    ∧ (compute_stats_lazy (fun q => q) strTable).count = []
    ∧ (compute_stats_lazy (fun q => q) strTable).null_count = []
    ∧ (compute_stats_lazy (fun q => q) strTable).mean = []
    ∧ (compute_stats_lazy (fun q => q) strTable).std = []
    ∧ (compute_stats_lazy (fun q => q) strTable).min = []
    ∧ (compute_stats_lazy (fun q => q) strTable).median = []
    ∧ (compute_stats_lazy (fun q => q) strTable).max = [] :=
  c6_stats_no_numeric (fun q => q) strTable (by decide)

/-- C7: a fractional sample argument resolves, before the windowed sampler
runs and against the pre-sample row count of the transformed rows, to the
integer `round(total_rows * f)`; for `f ≥ 0` the resolved size is within
1/2 of `total_rows * f`. -/
theorem c7_fraction_resolution {α : Type} (pick : ℕ → ℕ → List ℕ)
    (rows : List α) (f : ℚ) (hf : 0 ≤ f) :
    sample_command pick rows (SampleArg.fraction f)
      = apply_random_sample_streaming pick rows
          (roundToUsize ((rows.length : ℚ) * f))
    ∧ |((roundToUsize ((rows.length : ℚ) * f) : ℚ)) - (rows.length : ℚ) * f|
        ≤ 1 / 2 := by
  constructor
  · rfl
  · set x : ℚ := (rows.length : ℚ) * f with hx
    have hx0 : 0 ≤ x := mul_nonneg (by positivity) hf
    have hfloor0 : 0 ≤ ⌊x + 1 / 2⌋ := by
      apply Int.le_floor.mpr
      push_cast
      linarith
    have hcast : ((roundToUsize x : ℚ)) = ((⌊x + 1 / 2⌋ : ℤ) : ℚ) := by
      have h3 : (⌊x + 1 / 2⌋.toNat : ℤ) = ⌊x + 1 / 2⌋ :=
        Int.toNat_of_nonneg hfloor0
      show (((⌊x + 1 / 2⌋).toNat : ℚ)) = ((⌊x + 1 / 2⌋ : ℤ) : ℚ)
      exact_mod_cast congrArg (fun z : ℤ => (z : ℚ)) h3
    rw [hcast]
    have h1 : ((⌊x + 1 / 2⌋ : ℤ) : ℚ) ≤ x + 1 / 2 := Int.floor_le _
    have h2 : x + 1 / 2 - 1 < ((⌊x + 1 / 2⌋ : ℤ) : ℚ) := Int.sub_one_lt_floor _
    rw [abs_le]
    constructor <;> linarith

/-- Witness for C7: 10 transformed rows sampled at fraction 1/4
(resolving to 3 rows). -/
theorem c7_witness :
    sample_command rangePick (List.range 10) (SampleArg.fraction (1 / 4))
      = apply_random_sample_streaming rangePick (List.range 10)
          (roundToUsize (((List.range 10).length : ℚ) * (1 / 4)))
    ∧ |((roundToUsize (((List.range 10).length : ℚ) * (1 / 4)) : ℚ))
        - ((List.range 10).length : ℚ) * (1 / 4)| ≤ 1 / 2 :=
  c7_fraction_resolution rangePick (List.range 10) (1 / 4) (by norm_num)

/-- C8: when the engine's predicate parser rejects the filter string, the
pipeline compiler fails with an error carrying that exact string and
produces no stage sequence. -/
theorem c8_filter_failure (parseOk : String → Bool) (c : Cli) (p : String)
    (hp : c.filter = some p) (hfail : parseOk p = false) :
    apply_transformations parseOk c = Except.error (TtError.filterErr p)
    ∧ ∀ s : List Stage, apply_transformations parseOk c ≠ Except.ok s := by
  have h1 : apply_transformations parseOk c
      = Except.error (TtError.filterErr p) := by
    simp [apply_transformations, hp, hfail]
  refine ⟨h1, ?_⟩
  intro s hs
  rw [h1] at hs
  exact Except.noConfusion hs

/-- Witness for C8: a rejecting parser on a concrete Cli. -/
theorem c8_witness :
    apply_transformations (fun _ => false) cliBad
      = Except.error (TtError.filterErr "bogus((") :=
  (c8_filter_failure (fun _ => false) cliBad "bogus((" rfl rfl).1

/-- C9: with a single checked column the OR-reduction of the show-nulls
check degenerates to that column's null predicate, and the extraction
completes without error: it is the rows where that column is null, capped
at 100 unless the all flag is set. -/
theorem c9_single_column_nulls (rows : List Row) (cname : String)
    (allFlag : Bool) :
    combined_null_filter [cname] = some (fun r => isNullCell r cname)
    ∧ lint_show_nulls rows [cname] allFlag
        = some (if allFlag then rows.filter (fun r => isNullCell r cname)
                else (rows.filter (fun r => isNullCell r cname)).take 100)
    ∧ ∀ r, r ∈ rows.filter (fun r => isNullCell r cname)
        ↔ (r ∈ rows ∧ isNullCell r cname = true) := by
  refine ⟨rfl, rfl, ?_⟩
  intro r
  exact List.mem_filter

/-- C10 counterexample: on a numeric column containing a null, the lazy
and eager stats disagree — `compute_stats_lazy`'s `count` is the non-null
count (`Expr::count`) while `compute_stats`'s is the total length
(`series.len()`). -/
theorem c10_counterexample :
    (compute_stats_lazy (fun q => q) nullTable).count = [1]
    ∧ (compute_stats (fun q => q) nullTable).count = [2]
    ∧ compute_stats_lazy (fun q => q) nullTable
        ≠ compute_stats (fun q => q) nullTable := by
  decide

/-- C10 (amended): the lazy and eager stats agree on every field except
`count`, and agree fully (equal reports) whenever no numeric column
contains a null. -/
theorem c10_lazy_refines_eager (sqrtQ : ℚ → ℚ) (t : List NamedCol) :
    (compute_stats_lazy sqrtQ t).column = (compute_stats sqrtQ t).column
    ∧ (compute_stats_lazy sqrtQ t).null_count
        = (compute_stats sqrtQ t).null_count
    ∧ (compute_stats_lazy sqrtQ t).mean = (compute_stats sqrtQ t).mean
    ∧ (compute_stats_lazy sqrtQ t).std = (compute_stats sqrtQ t).std
    ∧ (compute_stats_lazy sqrtQ t).min = (compute_stats sqrtQ t).min
    ∧ (compute_stats_lazy sqrtQ t).median = (compute_stats sqrtQ t).median
    ∧ (compute_stats_lazy sqrtQ t).max = (compute_stats sqrtQ t).max
    ∧ ((∀ c ∈ t, c.dtype.isNumeric = true → ∀ v ∈ c.values, v.isSome = true) →
        compute_stats_lazy sqrtQ t = compute_stats sqrtQ t) := by
  by_cases hemp : (t.filter (fun c => c.dtype.isNumeric)).isEmpty = true
  · have hnil : t.filter (fun c => c.dtype.isNumeric) = [] :=
      List.isEmpty_iff.mp hemp
    simp [compute_stats_lazy, compute_stats, hemp, hnil, emptyStatsReport]
  · have hcount : (∀ c ∈ t, c.dtype.isNumeric = true →
        ∀ v ∈ c.values, v.isSome = true) →
        (t.filter (fun c => c.dtype.isNumeric)).map
            (fun c => aggCount c.values)
          = (t.filter (fun c => c.dtype.isNumeric)).map
            (fun c => c.values.length) := by
      intro h
      apply List.map_congr_left
      intro c hc
      have hmem := List.mem_filter.mp hc
      exact aggCount_of_noNulls (h c hmem.1 hmem.2)
    refine ⟨?_, ?_, ?_, ?_, ?_, ?_, ?_, ?_⟩ <;>
      simp only [compute_stats_lazy, compute_stats, if_neg hemp] <;>
      try rfl
    intro h
    rw [StatsReport.mk.injEq]
    exact ⟨rfl, hcount h, rfl, rfl, rfl, rfl, rfl, rfl⟩

/-- Witness for C10's amended claim on a null-free numeric column. -/
theorem c10_witness :
    (compute_stats_lazy (fun q => q) nonNullTable).column
      = (compute_stats (fun q => q) nonNullTable).column
    ∧ compute_stats_lazy (fun q => q) nonNullTable
      = compute_stats (fun q => q) nonNullTable :=
  ⟨(c10_lazy_refines_eager (fun q => q) nonNullTable).1,
   (c10_lazy_refines_eager (fun q => q) nonNullTable).2.2.2.2.2.2.2
     (by decide)⟩

end TabularTool
